import Mathlib

/-!
Shallow embedding of `src/packet/packet.go` (yiplee/packet-demo).

shopspring `decimal.Decimal` values are modelled as rationals (`ℚ`): the
library's `Add`, `Sub`, `Mul` and `Neg` are exact on the represented value,
`Div` is `DivRound` at `DivisionPrecision = 16` digits rounding half away
from zero, and `Truncate` is modelled by `decTruncate` below.  Go `int64`
fields are modelled as `Int`; no claim involves 64-bit overflow.
-/

namespace PacketDemo

/-- Go: `type Mode int` with `Normal = 1` (even split) and `Luck = 2`
(lucky packet); any other `Int` is a mode outside the two declared ones. -/
abbrev Mode := Int

/-- `Normal Mode = 1` (iota skips 0). -/
def Normal : Mode := 1

/-- `Luck Mode = 2`. -/
def Luck : Mode := 2

/-- `minimumRecordAmount, _ = decimal.NewFromString("0.01")`. -/
def minimumRecordAmount : ℚ := 1 / 100

/-- `decimal.NewFromString("0.01")` stores coefficient 1 with exponent -2,
so `minimumRecordAmount.Exponent()` returns -2. -/
def minimumRecordAmountExponent : Int := -2

/-- Model of shopspring `Decimal.Truncate d precision`.  The library's guard
is `precision >= 0 && -precision > d.exponent`; when it holds the value is
rescaled toward zero to `precision` digits after the decimal point.  When
`precision >= 0` but the value already has no more than `precision` digits
the library returns it unchanged, which agrees with truncating, so on the
represented value truncation-to-`precision`-digits is exact for every
nonnegative `precision`.  When `precision < 0` the guard fails and the value
is returned unchanged. -/
def decTruncate (precision : Int) (x : ℚ) : ℚ :=
  if 0 ≤ precision then
    let p : ℚ := (10 : ℚ) ^ precision.toNat
    if x < 0 then -((Int.floor (-x * p) : ℚ) / p) else ((Int.floor (x * p) : ℚ) / p)
  else x

/-- shopspring `DivisionPrecision` (package default, unchanged by the repo). -/
def divisionPrecision : ℕ := 16

/-- Model of shopspring `Decimal.Div`, which is `DivRound` at
`divisionPrecision` digits: truncate the quotient toward zero at 16 digits
after the decimal point, then round the last digit half away from zero.
For operands of equal sign this is `⌊|x| / |y| * 10^16 + 1/2⌋ / 10^16` with
the sign reattached.  (The library panics on a zero divisor; no claim
divides by zero.) -/
def decDiv (x y : ℚ) : ℚ :=
  let p : ℚ := (10 : ℚ) ^ divisionPrecision
  let q : ℤ := Int.floor (|x| / |y| * p + 1 / 2)
  if x * y < 0 then -((q : ℚ) / p) else (q : ℚ) / p

/-- Go `struct Packet`.  `CreatedAt`, `UpdatedAt` and `Message` are carried
by no claim and are omitted; all other fields are kept with the source's
names (lower-camel-cased). -/
structure Packet where
  id : Int
  userID : Int
  mode : Mode
  totalCount : Int
  remainCount : Int
  totalAmount : ℚ
  remainAmount : ℚ
deriving DecidableEq

/-- Go `struct Record` (claim record); `ID`, `CreatedAt`, `UpdatedAt` are
database-generated metadata carried by no claim and are omitted. -/
structure Record where
  userID : Int
  packetID : Int
  amount : ℚ
deriving DecidableEq

/-- The `switch` in `Claim` (packet.go lines 96-112) that sets `r.Amount`,
as a function of the snapshot and of the random draw
`u = NewFromFloat(rand.Float64()) ∈ [0,1)`.  The final
`.Truncate(min.Exponent())` receives precision -2, on which the library's
`Truncate` is the identity (its guard requires a nonnegative precision).
When no case matches (mode outside Normal/Luck and remainCount ≠ 1),
`r.Amount` keeps the Decimal zero value. -/
def allocAmount (packet : Packet) (u : ℚ) : ℚ :=
  if packet.remainCount = 1 then
    packet.remainAmount
  else if packet.mode = Normal then
    decDiv packet.remainAmount (packet.remainCount : ℚ)
  else if packet.mode = Luck then
    let min := minimumRecordAmount
    let max := packet.remainAmount - ((packet.remainCount - 1 : Int) : ℚ) * min
    let avg := decDiv packet.remainAmount (packet.remainCount : ℚ)
    let max := if avg + avg < max then avg + avg else max
    decTruncate minimumRecordAmountExponent ((max - min) * u + min)
  else 0

/-- Errors Claim can return.  `exhausted` is `ErrExhausted`, `optimisticLock`
is `ErrOptimisticLock` (both package-level sentinels created with
`errors.New`, hence distinct from every other error value), `ctxErr` is
`ctx.Err()` (context.Canceled or DeadlineExceeded), and `dbErr code` stands
for an error produced by the database layer (gorm or the driver, including
`gorm.ErrRecordNotFound`); the database never returns this package's
sentinels, which the `code` index reflects. -/
inductive GoErr where
  | exhausted
  | optimisticLock
  | ctxErr
  | dbErr (code : Nat)
deriving DecidableEq

/-- One attempted transaction body (packet.go lines 116-130): the values of
the `Where("id = ? AND remain_count = ?")` condition, the `updates` map, and
the record handed to `Create`. -/
structure CommitReq where
  packetID : Int
  whereRemainCount : Int
  newRemainCount : Int
  newRemainAmount : ℚ
  record : Record
deriving DecidableEq

/-- What the database does with one commit attempt: `ok` (condition held,
both writes accepted), `conflict` (`RowsAffected == 0`), `updateErr code`
(`tx.Error` from `Updates`), or `createErr code` (`tx.Create(r).Error`). -/
inductive CommitOutcome where
  | ok
  | conflict
  | updateErr (code : Nat)
  | createErr (code : Nat)
deriving DecidableEq

/-- The environment one attempt of `Claim` runs against: the outcome of
`FindUserRecord` (`.ok r` when a record row is found, `.error code` for any
gorm error, `ErrRecordNotFound` included), the random draw
`u = NewFromFloat(rand.Float64())`, the database's treatment of the commit,
whether `ctx.Done()` fires before the 50ms `time.After` timer during the
backoff select, and the outcome of the `FindPacket` reload. -/
structure AttemptEnv where
  lookup : Except Nat Record
  u : ℚ
  commit : CommitOutcome
  cancelled : Bool
  reload : Except Nat Packet

/-- What running `Claim` produces: the final value of the `Packet` struct the
caller passed in (Claim writes to it through the pointer), the commit
requests issued in order, and the returned value — `none` when the attempt
trace ran out, modelling the unbounded retry recursion not having returned
yet. -/
structure ClaimOut where
  snapshot : Packet
  commits : List CommitReq
  result : Option (Except GoErr Record)

/-- `func Claim(ctx, db, packet, userID)` (packet.go lines 79-155), one
constructor case per attempt environment.  Mirrors the source in order:
the `RemainCount == 0` check, the `FindUserRecord` branch taken only when
`err == nil`, the switch computing `r.Amount`, the in-place write
`packet.RemainAmount = packet.RemainAmount.Sub(r.Amount)`, the transaction
(whose returned error is compared with `ErrOptimisticLock`), and on conflict
the select between `ctx.Done()` and the timer followed by the `FindPacket`
reload and the recursive call on a fresh snapshot. -/
def claimGo (userID : Int) : List AttemptEnv → Packet → ClaimOut
  | [], packet => ⟨packet, [], none⟩
  | env :: rest, packet =>
    if packet.remainCount = 0 then ⟨packet, [], some (.error .exhausted)⟩
    else
      match env.lookup with
      | .ok r => ⟨packet, [], some (.ok r)⟩
      | .error _ =>
        let r : Record := ⟨userID, packet.id, allocAmount packet env.u⟩
        let packet' : Packet :=
          { packet with remainAmount := packet.remainAmount - r.amount }
        let req : CommitReq :=
          ⟨packet'.id, packet'.remainCount, packet'.remainCount - 1,
            packet'.remainAmount, r⟩
        let txErr : Option GoErr :=
          match env.commit with
          | .ok => none
          | .conflict => some .optimisticLock
          | .updateErr c => some (.dbErr c)
          | .createErr c => some (.dbErr c)
        match txErr with
        | none => ⟨packet', [req], some (.ok r)⟩
        | some e =>
          if e = .optimisticLock then
            if env.cancelled then ⟨packet', [req], some (.error .ctxErr)⟩
            else
              match env.reload with
              | .error c => ⟨packet', [req], some (.error (.dbErr c))⟩
              | .ok p2 =>
                let out := claimGo userID rest p2
                ⟨packet', req :: out.commits, out.result⟩
          else ⟨packet', [req], some (.error e)⟩

/-- The record Claim builds for an attempt, before the transaction: claimant,
packet, and the amount the switch allocated. -/
def attemptRecord (userID : Int) (p : Packet) (u : ℚ) : Record :=
  ⟨userID, p.id, allocAmount p u⟩

/-- The snapshot after the in-place write
`packet.RemainAmount = packet.RemainAmount.Sub(r.Amount)` (line 114). -/
def decrementedSnapshot (p : Packet) (u : ℚ) : Packet :=
  { p with remainAmount := p.remainAmount - allocAmount p u }

/-- The commit request one attempt issues. -/
def attemptReq (userID : Int) (p : Packet) (u : ℚ) : CommitReq :=
  ⟨p.id, p.remainCount, p.remainCount - 1,
    p.remainAmount - allocAmount p u, attemptRecord userID p u⟩

/-- Stored database state: the row of one packet and its records table. -/
structure Storage where
  packet : Packet
  records : List Record
deriving DecidableEq

/-- An open gorm transaction: the pending state and whether `Commit` was
called on it. -/
structure Tx where
  st : Storage
  committed : Bool

/-- `func transaction(db, fn)` (packet.go lines 157-162): `Begin` opens the
transaction, `defer tx.RollbackUnlessCommitted()` runs after `fn` and rolls
the transaction back — discarding its pending writes — unless `fn` called
`Commit` on it; the function body never calls `Commit` itself. -/
def transaction (s : Storage) (fn : Tx → Tx × Option GoErr) :
    Storage × Option GoErr :=
  let r := fn ⟨s, false⟩
  ((if r.1.committed then r.1.st else s), r.2)

/-- The closure Claim passes to `transaction` (packet.go lines 116-130),
acting on the open transaction: the conditional `Updates` on the packet row
(`Where("id = ? AND remain_count = ?")`; `RowsAffected == 0` yields
`ErrOptimisticLock` with no write), then `Create` of the record.  `packet`
is the snapshot, already holding the decremented `RemainAmount`; database
failures of the two statements are not modelled here (`claimGo` carries
those through its environment).  Neither branch calls `Commit`. -/
def claimTxBody (packet : Packet) (r : Record) (tx : Tx) :
    Tx × Option GoErr :=
  if tx.st.packet.id = packet.id ∧
      tx.st.packet.remainCount = packet.remainCount then
    (⟨⟨{ tx.st.packet with
          remainCount := packet.remainCount - 1,
          remainAmount := packet.remainAmount },
        tx.st.records ++ [r]⟩, tx.committed⟩, none)
  else (tx, some .optimisticLock)

/-- The commit attempt of Claim: run the conditional-update-plus-insert body
under `transaction`, returning the resulting stored state and the error
`Claim` inspects. -/
def claimCommit (s : Storage) (packet : Packet) (r : Record) :
    Storage × Option GoErr :=
  transaction s (claimTxBody packet r)

/-- One successful claim commit, at the level of the writes the transaction
body issues (packet.go lines 115-130): the snapshot is the stored row (the
`remain_count` condition held, and within a sequence of committed claims the
count is a version token, so the snapshot's fields agree with the row), the
claimant holds no record yet, and the amount comes from the allocation
switch under some draw `u ∈ [0,1)`. -/
inductive ClaimStep : Storage → Storage → Prop where
  | mk (s : Storage) (userID : Int) (u : ℚ)
      (hexh : s.packet.remainCount ≠ 0)
      (hno : ∀ r ∈ s.records, ¬(r.userID = userID ∧ r.packetID = s.packet.id)) :
      ClaimStep s
        ⟨{ s.packet with
            remainCount := s.packet.remainCount - 1,
            remainAmount := s.packet.remainAmount - allocAmount s.packet u },
          s.records ++ [⟨userID, s.packet.id, allocAmount s.packet u⟩]⟩

/-- A freshly created packet: `remain_count = total_count` and
`remain_amount = total_amount`, with no records yet. -/
def initialStorage (s : Storage) : Prop :=
  s.packet.remainCount = s.packet.totalCount ∧
    s.packet.remainAmount = s.packet.totalAmount ∧ s.records = []

/-- The global accounting invariant of the spec:
`total_amount - remain_amount = Σ amount` over the packet's records and
`total_count - remain_count = count(records)`. -/
def accountingInv (s : Storage) : Prop :=
  s.packet.totalAmount - s.packet.remainAmount =
      (s.records.map Record.amount).sum ∧
    s.packet.totalCount - s.packet.remainCount = (s.records.length : Int)

/-! ### Reduction lemmas: the shapes one attempt of Claim can take -/

theorem decTruncate_of_neg (precision : Int) (x : ℚ) (h : precision < 0) :
    decTruncate precision x = x := by
  simp [decTruncate, not_le.mpr h]

theorem claimGo_nil (uid : Int) (p : Packet) : claimGo uid [] p = ⟨p, [], none⟩ :=
  rfl

theorem claimGo_cons_exhausted (uid : Int) (env : AttemptEnv)
    (rest : List AttemptEnv) (p : Packet) (hc : p.remainCount = 0) :
    claimGo uid (env :: rest) p = ⟨p, [], some (.error .exhausted)⟩ := by
  simp [claimGo, hc]

theorem claimGo_cons_found (uid : Int) (env : AttemptEnv)
    (rest : List AttemptEnv) (p : Packet) (r : Record)
    (hc : p.remainCount ≠ 0) (hl : env.lookup = .ok r) :
    claimGo uid (env :: rest) p = ⟨p, [], some (.ok r)⟩ := by
  obtain ⟨lk, u, cm, cl, rl⟩ := env
  simp only at hl
  subst hl
  simp [claimGo, hc]

theorem claimGo_cons_ok (uid : Int) (env : AttemptEnv)
    (rest : List AttemptEnv) (p : Packet) (c : Nat)
    (hc : p.remainCount ≠ 0) (hl : env.lookup = .error c)
    (hcm : env.commit = .ok) :
    claimGo uid (env :: rest) p =
      ⟨decrementedSnapshot p env.u, [attemptReq uid p env.u],
        some (.ok (attemptRecord uid p env.u))⟩ := by
  obtain ⟨lk, u, cm, cl, rl⟩ := env
  simp only at hl hcm
  subst hl; subst hcm
  simp [claimGo, hc, decrementedSnapshot, attemptReq, attemptRecord]

theorem claimGo_cons_updateErr (uid : Int) (env : AttemptEnv)
    (rest : List AttemptEnv) (p : Packet) (c cc : Nat)
    (hc : p.remainCount ≠ 0) (hl : env.lookup = .error c)
    (hcm : env.commit = .updateErr cc) :
    claimGo uid (env :: rest) p =
      ⟨decrementedSnapshot p env.u, [attemptReq uid p env.u],
        some (.error (.dbErr cc))⟩ := by
  obtain ⟨lk, u, cm, cl, rl⟩ := env
  simp only at hl hcm
  subst hl; subst hcm
  simp [claimGo, hc, decrementedSnapshot, attemptReq, attemptRecord]

theorem claimGo_cons_createErr (uid : Int) (env : AttemptEnv)
    (rest : List AttemptEnv) (p : Packet) (c cc : Nat)
    (hc : p.remainCount ≠ 0) (hl : env.lookup = .error c)
    (hcm : env.commit = .createErr cc) :
    claimGo uid (env :: rest) p =
      ⟨decrementedSnapshot p env.u, [attemptReq uid p env.u],
        some (.error (.dbErr cc))⟩ := by
  obtain ⟨lk, u, cm, cl, rl⟩ := env
  simp only at hl hcm
  subst hl; subst hcm
  simp [claimGo, hc, decrementedSnapshot, attemptReq, attemptRecord]

theorem claimGo_cons_cancelled (uid : Int) (env : AttemptEnv)
    (rest : List AttemptEnv) (p : Packet) (c : Nat)
    (hc : p.remainCount ≠ 0) (hl : env.lookup = .error c)
    (hcm : env.commit = .conflict) (hcl : env.cancelled = true) :
    claimGo uid (env :: rest) p =
      ⟨decrementedSnapshot p env.u, [attemptReq uid p env.u],
        some (.error .ctxErr)⟩ := by
  obtain ⟨lk, u, cm, cl, rl⟩ := env
  simp only at hl hcm hcl
  subst hl; subst hcm; subst hcl
  simp [claimGo, hc, decrementedSnapshot, attemptReq, attemptRecord]

theorem claimGo_cons_reloadErr (uid : Int) (env : AttemptEnv)
    (rest : List AttemptEnv) (p : Packet) (c cc : Nat)
    (hc : p.remainCount ≠ 0) (hl : env.lookup = .error c)
    (hcm : env.commit = .conflict) (hcl : env.cancelled = false)
    (hrl : env.reload = .error cc) :
    claimGo uid (env :: rest) p =
      ⟨decrementedSnapshot p env.u, [attemptReq uid p env.u],
        some (.error (.dbErr cc))⟩ := by
  obtain ⟨lk, u, cm, cl, rl⟩ := env
  simp only at hl hcm hcl hrl
  subst hl; subst hcm; subst hcl; subst hrl
  simp [claimGo, hc, decrementedSnapshot, attemptReq, attemptRecord]

theorem claimGo_cons_retry (uid : Int) (env : AttemptEnv)
    (rest : List AttemptEnv) (p : Packet) (c : Nat) (p2 : Packet)
    (hc : p.remainCount ≠ 0) (hl : env.lookup = .error c)
    (hcm : env.commit = .conflict) (hcl : env.cancelled = false)
    (hrl : env.reload = .ok p2) :
    claimGo uid (env :: rest) p =
      ⟨decrementedSnapshot p env.u,
        attemptReq uid p env.u :: (claimGo uid rest p2).commits,
        (claimGo uid rest p2).result⟩ := by
  obtain ⟨lk, u, cm, cl, rl⟩ := env
  simp only at hl hcm hcl hrl
  subst hl; subst hcm; subst hcl; subst hrl
  simp [claimGo, hc, decrementedSnapshot, attemptReq, attemptRecord]

/-- Whatever the database answers, an attempt that passes the exhaustion
check and whose record lookup errored issues its commit request first. -/
theorem claimGo_cons_head_commit (uid : Int) (env : AttemptEnv)
    (rest : List AttemptEnv) (p : Packet) (c : Nat)
    (hc : p.remainCount ≠ 0) (hl : env.lookup = .error c) :
    (claimGo uid (env :: rest) p).commits.head? = some (attemptReq uid p env.u) := by
  rcases hcm : env.commit with _ | _ | cc | cc
  · rw [claimGo_cons_ok uid env rest p c hc hl hcm]
    rfl
  · rcases hcl : env.cancelled with _ | _
    · rcases hrl : env.reload with c2 | p2
      · rw [claimGo_cons_reloadErr uid env rest p c c2 hc hl hcm hcl hrl]
        rfl
      · rw [claimGo_cons_retry uid env rest p c p2 hc hl hcm hcl hrl]
        rfl
    · rw [claimGo_cons_cancelled uid env rest p c hc hl hcm hcl]
      rfl
  · rw [claimGo_cons_updateErr uid env rest p c cc hc hl hcm]
    rfl
  · rw [claimGo_cons_createErr uid env rest p c cc hc hl hcm]
    rfl

/-- Whatever the database answers, an attempt that passes the exhaustion
check and whose record lookup errored leaves the caller's snapshot with the
in-place decremented `RemainAmount` of line 114. -/
theorem claimGo_cons_snapshot_attempt (uid : Int) (env : AttemptEnv)
    (rest : List AttemptEnv) (p : Packet) (c : Nat)
    (hc : p.remainCount ≠ 0) (hl : env.lookup = .error c) :
    (claimGo uid (env :: rest) p).snapshot = decrementedSnapshot p env.u := by
  rcases hcm : env.commit with _ | _ | cc | cc
  · rw [claimGo_cons_ok uid env rest p c hc hl hcm]
  · rcases hcl : env.cancelled with _ | _
    · rcases hrl : env.reload with c2 | p2
      · rw [claimGo_cons_reloadErr uid env rest p c c2 hc hl hcm hcl hrl]
      · rw [claimGo_cons_retry uid env rest p c p2 hc hl hcm hcl hrl]
    · rw [claimGo_cons_cancelled uid env rest p c hc hl hcm hcl]
  · rw [claimGo_cons_updateErr uid env rest p c cc hc hl hcm]
  · rw [claimGo_cons_createErr uid env rest p c cc hc hl hcm]

/-! ### The claims -/

/-- C6: on a snapshot with `remain_count == 1`, in every mode, the allocated
amount equals the snapshot's `remain_amount` exactly, leaving a remainder of
zero with no residual fraction. -/
theorem allocAmount_last_slot (p : Packet) (u : ℚ) (h : p.remainCount = 1) :
    allocAmount p u = p.remainAmount ∧
      p.remainAmount - allocAmount p u = 0 := by
  simp [allocAmount, h]

theorem allocAmount_last_slot_witness :
    allocAmount ⟨1, 2, Luck, 5, 1, 5, 3/4⟩ (1/3) = 3/4 ∧
      (3/4 : ℚ) - allocAmount ⟨1, 2, Luck, 5, 1, 5, 3/4⟩ (1/3) = 0 :=
  allocAmount_last_slot ⟨1, 2, Luck, 5, 1, 5, 3/4⟩ (1/3) rfl

/-- C10: on a snapshot with `remain_count ≥ 2` and a mode that is neither
`Normal` nor `Luck`, no case of the switch fires, the allocated amount is
the Decimal zero value, and the attempted commit carries a record of amount
0, decrements `remain_count` by 1 and leaves `remain_amount` unchanged. -/
theorem claim_unknown_mode_zero (uid : Int) (env : AttemptEnv)
    (rest : List AttemptEnv) (p : Packet) (c : Nat)
    (h1 : p.mode ≠ Normal) (h2 : p.mode ≠ Luck) (hc : 2 ≤ p.remainCount)
    (hl : env.lookup = .error c) :
    allocAmount p env.u = 0 ∧
      (claimGo uid (env :: rest) p).commits.head? =
        some ⟨p.id, p.remainCount, p.remainCount - 1, p.remainAmount,
          ⟨uid, p.id, 0⟩⟩ := by
  have hc1 : p.remainCount ≠ 1 := by omega
  have hc0 : p.remainCount ≠ 0 := by omega
  have ha : allocAmount p env.u = 0 := by simp [allocAmount, hc1, h1, h2]
  refine ⟨ha, ?_⟩
  rw [claimGo_cons_head_commit uid env rest p c hc0 hl]
  simp [attemptReq, attemptRecord, ha]

theorem claim_unknown_mode_zero_witness :
    allocAmount ⟨1, 2, 5, 2, 2, 1, 1⟩
        (AttemptEnv.mk (.error 0) 0 .ok false (.error 0)).u = 0 ∧
      (claimGo 7 [⟨.error 0, 0, .ok, false, .error 0⟩]
          ⟨1, 2, 5, 2, 2, 1, 1⟩).commits.head? =
        some ⟨1, 2, 2 - 1, 1, ⟨7, 1, 0⟩⟩ :=
  claim_unknown_mode_zero 7 ⟨.error 0, 0, .ok, false, .error 0⟩ []
    ⟨1, 2, 5, 2, 2, 1, 1⟩ 0 (by decide) (by decide) (by decide) rfl

/-- C2 counterexample: a claimant (user 7) who already holds a Record for
the packet — the lookup environment returns it — calls Claim on a snapshot
with `remain_count == 0`, and Claim returns `ErrExhausted` instead of the
existing Record: the exhaustion check at the top of Claim runs before the
idempotency lookup, so the claim's "regardless of the packet's current
state — including a snapshot with remain_count == 0" is false. -/
theorem claim_exhausted_shadows_idempotency :
    (claimGo 7 [⟨.ok ⟨7, 1, 1/2⟩, 0, .ok, false, .error 0⟩]
        ⟨1, 2, Normal, 2, 0, 1, 0⟩).result = some (.error .exhausted) := by
  rw [claimGo_cons_exhausted 7 _ [] _ rfl]

/-- C2 amended: on a snapshot with nonzero `remain_count`, a claimant whose
Record lookup succeeds gets that Record back unchanged, with no commit
attempt and no write to the snapshot, whatever the rest of the environment
holds; with `remain_count == 0` Claim returns Exhausted even for such a
claimant. -/
theorem claim_idempotent_nonzero (uid : Int) (env : AttemptEnv)
    (rest : List AttemptEnv) (p : Packet) (r : Record)
    (hc : p.remainCount ≠ 0) (hl : env.lookup = .ok r) :
    claimGo uid (env :: rest) p = ⟨p, [], some (.ok r)⟩ :=
  claimGo_cons_found uid env rest p r hc hl

theorem claim_idempotent_nonzero_witness :
    claimGo 7 [⟨.ok ⟨7, 1, 1/2⟩, 0, .ok, false, .error 0⟩]
        ⟨1, 2, Normal, 2, 1, 1, 1/2⟩ =
      ⟨⟨1, 2, Normal, 2, 1, 1, 1/2⟩, [], some (.ok ⟨7, 1, 1/2⟩)⟩ :=
  claim_idempotent_nonzero 7 ⟨.ok ⟨7, 1, 1/2⟩, 0, .ok, false, .error 0⟩ []
    ⟨1, 2, Normal, 2, 1, 1, 1/2⟩ ⟨7, 1, 1/2⟩ (by decide) rfl

/-- C7 counterexample: the Record lookup of the idempotency check fails with
a storage error (code 7, say a connectivity failure); Claim does not
propagate it — `FindUserRecord` is only tested for `err == nil` — and
instead proceeds to allocate and commit, returning a fresh Record with the
even-split amount 0.50 of the 1.00/2 snapshot. -/
theorem claim_swallows_lookup_error :
    (claimGo 7 [⟨.error 7, 0, .ok, false, .error 0⟩]
        ⟨1, 2, Normal, 2, 2, 1, 1⟩).result = some (.ok ⟨7, 1, 1/2⟩) := by
  rw [claimGo_cons_ok 7 _ [] _ 7 (by decide) rfl rfl]
  norm_num [attemptRecord, allocAmount, Normal, decDiv, divisionPrecision]

/-- C7 amended: storage errors of the commit (the `Updates` statement's
`tx.Error` or the `Create` error) and of the post-conflict packet reload are
propagated to the caller immediately and unchanged, with no retry; an error
of the Record lookup in the idempotency check, however, is not propagated:
it is treated as the absence of a record and the attempt proceeds to
allocate and commit. -/
theorem claim_error_propagation_amended (uid : Int) (env : AttemptEnv)
    (rest : List AttemptEnv) (p : Packet) (c : Nat)
    (hc : p.remainCount ≠ 0) (hl : env.lookup = .error c) :
    (∀ cc, env.commit = .updateErr cc ∨ env.commit = .createErr cc →
        claimGo uid (env :: rest) p =
          ⟨decrementedSnapshot p env.u, [attemptReq uid p env.u],
            some (.error (.dbErr cc))⟩) ∧
      (∀ cc, env.commit = .conflict → env.cancelled = false →
        env.reload = .error cc →
        claimGo uid (env :: rest) p =
          ⟨decrementedSnapshot p env.u, [attemptReq uid p env.u],
            some (.error (.dbErr cc))⟩) ∧
      (claimGo uid (env :: rest) p).commits.head? =
        some (attemptReq uid p env.u) := by
  refine ⟨?_, ?_, claimGo_cons_head_commit uid env rest p c hc hl⟩
  · rintro cc (hcm | hcm)
    · exact claimGo_cons_updateErr uid env rest p c cc hc hl hcm
    · exact claimGo_cons_createErr uid env rest p c cc hc hl hcm
  · intro cc hcm hcl hrl
    exact claimGo_cons_reloadErr uid env rest p c cc hc hl hcm hcl hrl

theorem claim_error_propagation_amended_witness :
    (∀ cc, (AttemptEnv.mk (.error 7) 0 (.updateErr 9) false (.error 0)).commit
          = .updateErr cc ∨
        (AttemptEnv.mk (.error 7) 0 (.updateErr 9) false (.error 0)).commit
          = .createErr cc →
        claimGo 7 [⟨.error 7, 0, .updateErr 9, false, .error 0⟩]
            ⟨1, 2, Normal, 2, 2, 1, 1⟩ =
          ⟨decrementedSnapshot ⟨1, 2, Normal, 2, 2, 1, 1⟩ 0,
            [attemptReq 7 ⟨1, 2, Normal, 2, 2, 1, 1⟩ 0],
            some (.error (.dbErr cc))⟩) ∧
      (∀ cc, (AttemptEnv.mk (.error 7) 0 (.updateErr 9) false
            (.error 0)).commit = .conflict →
        (AttemptEnv.mk (.error 7) 0 (.updateErr 9) false
            (.error 0)).cancelled = false →
        (AttemptEnv.mk (.error 7) 0 (.updateErr 9) false
            (.error 0)).reload = .error cc →
        claimGo 7 [⟨.error 7, 0, .updateErr 9, false, .error 0⟩]
            ⟨1, 2, Normal, 2, 2, 1, 1⟩ =
          ⟨decrementedSnapshot ⟨1, 2, Normal, 2, 2, 1, 1⟩ 0,
            [attemptReq 7 ⟨1, 2, Normal, 2, 2, 1, 1⟩ 0],
            some (.error (.dbErr cc))⟩) ∧
      (claimGo 7 [⟨.error 7, 0, .updateErr 9, false, .error 0⟩]
          ⟨1, 2, Normal, 2, 2, 1, 1⟩).commits.head? =
        some (attemptReq 7 ⟨1, 2, Normal, 2, 2, 1, 1⟩ 0) :=
  claim_error_propagation_amended 7 ⟨.error 7, 0, .updateErr 9, false, .error 0⟩
    [] ⟨1, 2, Normal, 2, 2, 1, 1⟩ 7 (by decide) rfl

/-- C9 counterexample: Claim is called with a snapshot holding
`RemainAmount = 1.00`, `RemainCount = 2`, Even mode; the attempt reaches the
commit stage and line 114 writes the decremented value 0.50 into the
caller's snapshot through the pointer, so the snapshot is not treated as
read-only. -/
theorem claim_mutates_snapshot :
    (claimGo 7 [⟨.error 0, 0, .ok, false, .error 0⟩]
        ⟨1, 2, Normal, 2, 2, 1, 1⟩).snapshot.remainAmount ≠
      (⟨1, 2, Normal, 2, 2, 1, 1⟩ : Packet).remainAmount := by
  rw [claimGo_cons_ok 7 _ [] _ 0 (by decide) rfl rfl]
  show (decrementedSnapshot _ _).remainAmount ≠ _
  norm_num [decrementedSnapshot, allocAmount, Normal, decDiv, divisionPrecision]

/-- C9 amended: Claim never writes the snapshot's `RemainCount` (nor any
field other than `RemainAmount`); the attempts that return before the
allocation (exhausted snapshot, existing record) leave the snapshot
untouched; but every attempt whose lookup misses on a non-exhausted
snapshot decrements the snapshot's `RemainAmount` in place by the allocated
amount (line 114), on success, conflict and error outcomes alike. -/
theorem claim_snapshot_frame_amended (uid : Int) (env : AttemptEnv)
    (rest : List AttemptEnv) (p : Packet) :
    ((claimGo uid (env :: rest) p).snapshot.id = p.id ∧
      (claimGo uid (env :: rest) p).snapshot.userID = p.userID ∧
      (claimGo uid (env :: rest) p).snapshot.mode = p.mode ∧
      (claimGo uid (env :: rest) p).snapshot.totalCount = p.totalCount ∧
      (claimGo uid (env :: rest) p).snapshot.remainCount = p.remainCount ∧
      (claimGo uid (env :: rest) p).snapshot.totalAmount = p.totalAmount) ∧
      (p.remainCount = 0 → (claimGo uid (env :: rest) p).snapshot = p) ∧
      (∀ r, p.remainCount ≠ 0 → env.lookup = .ok r →
        (claimGo uid (env :: rest) p).snapshot = p) ∧
      (∀ c, p.remainCount ≠ 0 → env.lookup = .error c →
        (claimGo uid (env :: rest) p).snapshot.remainAmount =
          p.remainAmount - allocAmount p env.u) := by
  have hfields : ∀ hc0 : p.remainCount = 0,
      (claimGo uid (env :: rest) p).snapshot = p :=
    fun hc0 => by rw [claimGo_cons_exhausted uid env rest p hc0]
  by_cases hc : p.remainCount = 0
  · rw [hfields hc]
    refine ⟨⟨rfl, rfl, rfl, rfl, rfl, rfl⟩, fun _ => rfl, fun _ _ _ => rfl, ?_⟩
    intro c hc0 _
    exact absurd hc hc0
  · rcases hl : env.lookup with c | r
    · rw [claimGo_cons_snapshot_attempt uid env rest p c hc hl]
      refine ⟨⟨rfl, rfl, rfl, rfl, rfl, rfl⟩, fun h0 => absurd h0 hc, ?_, ?_⟩
      · intro r _ hr
        exact absurd hr (by simp)
      · intro c2 _ _
        rfl
    · rw [claimGo_cons_found uid env rest p r hc hl]
      refine ⟨⟨rfl, rfl, rfl, rfl, rfl, rfl⟩, fun _ => rfl, fun _ _ _ => rfl, ?_⟩
      intro c2 _ hc2
      exact absurd hc2 (by simp)

/-- C1 (code bug): the `transaction` helper opens the transaction with
`Begin` and defers `RollbackUnlessCommitted`, but neither it nor the commit
body ever calls `Commit`, so the conditional decrement and the record
insert are rolled back even when the `remain_count` condition holds and the
body reports success: the stored state after `claimCommit` always equals
the stored state before it, and in particular (concrete instance) claiming
the last slot of a matching stored packet returns no error while
persisting neither the decrement nor the record. -/
theorem claimCommit_never_persists :
    (∀ (s : Storage) (packet : Packet) (r : Record),
        (claimCommit s packet r).1 = s) ∧
      claimCommit ⟨⟨1, 2, Normal, 1, 1, 1, 1⟩, []⟩ ⟨1, 2, Normal, 1, 1, 1, 0⟩
          ⟨7, 1, 1⟩ =
        (⟨⟨1, 2, Normal, 1, 1, 1, 1⟩, []⟩, none) := by
  constructor
  · intro s packet r
    unfold claimCommit transaction claimTxBody
    split <;> simp
  · unfold claimCommit transaction claimTxBody
    norm_num

/-- C8: (a) `ErrOptimisticLock` never surfaces: whatever the environment
trace, a returned error is never the conflict sentinel — the conflict
branch always retries; (b) when an attempt's commit hits the optimistic-lock
conflict and the caller's cancellation fires during the 50ms backoff select,
Claim returns `ctx.Err()` and no Record; (c) when the cancellation does not
fire, Claim reloads the packet and the call's outcome is the retry's outcome
on the fresh snapshot. -/
theorem claim_conflict_retry :
    (∀ (uid : Int) (envs : List AttemptEnv) (p : Packet) (e : GoErr),
        (claimGo uid envs p).result = some (.error e) →
        e ≠ .optimisticLock) ∧
      (∀ (uid : Int) (env : AttemptEnv) (rest : List AttemptEnv) (p : Packet)
          (c : Nat),
        p.remainCount ≠ 0 → env.lookup = .error c →
        env.commit = .conflict → env.cancelled = true →
        (claimGo uid (env :: rest) p).result = some (.error .ctxErr)) ∧
      (∀ (uid : Int) (env : AttemptEnv) (rest : List AttemptEnv) (p : Packet)
          (c : Nat) (p2 : Packet),
        p.remainCount ≠ 0 → env.lookup = .error c →
        env.commit = .conflict → env.cancelled = false →
        env.reload = .ok p2 →
        (claimGo uid (env :: rest) p).result = (claimGo uid rest p2).result) := by
  refine ⟨?_, ?_, ?_⟩
  · intro uid envs
    induction envs with
    | nil =>
      intro p e h
      rw [claimGo_nil] at h
      exact absurd h (by simp)
    | cons env rest ih =>
      intro p e h he
      subst he
      by_cases hc : p.remainCount = 0
      · rw [claimGo_cons_exhausted uid env rest p hc] at h
        simp at h
      · rcases hl : env.lookup with c | r
        · rcases hcm : env.commit with _ | _ | cc | cc
          · rw [claimGo_cons_ok uid env rest p c hc hl hcm] at h
            simp at h
          · rcases hcl : env.cancelled with _ | _
            · rcases hrl : env.reload with c2 | p2
              · rw [claimGo_cons_reloadErr uid env rest p c c2 hc hl hcm hcl hrl] at h
                simp at h
              · rw [claimGo_cons_retry uid env rest p c p2 hc hl hcm hcl hrl] at h
                exact ih p2 .optimisticLock h rfl
            · rw [claimGo_cons_cancelled uid env rest p c hc hl hcm hcl] at h
              simp at h
          · rw [claimGo_cons_updateErr uid env rest p c cc hc hl hcm] at h
            simp at h
          · rw [claimGo_cons_createErr uid env rest p c cc hc hl hcm] at h
            simp at h
        · rw [claimGo_cons_found uid env rest p r hc hl] at h
          simp at h
  · intro uid env rest p c hc hl hcm hcl
    rw [claimGo_cons_cancelled uid env rest p c hc hl hcm hcl]
  · intro uid env rest p c p2 hc hl hcm hcl hrl
    rw [claimGo_cons_retry uid env rest p c p2 hc hl hcm hcl hrl]

/-- C4: from a freshly created packet, any sequence of successful claim
commits preserves the accounting identity: the consumed amount equals the
sum of the recorded amounts and the consumed count equals the number of
records. -/
theorem claim_accounting_invariant (s0 s : Storage)
    (h0 : initialStorage s0) (hr : Relation.ReflTransGen ClaimStep s0 s) :
    accountingInv s := by
  induction hr with
  | refl =>
    obtain ⟨h1, h2, h3⟩ := h0
    simp [accountingInv, h1, h2, h3]
  | @tail b c hab step ih =>
    obtain ⟨hA, hC⟩ := ih
    cases step with
    | mk uid u hexh hno =>
      constructor
      · simp only [accountingInv, List.map_append, List.sum_append,
          List.map_cons, List.map_nil, List.sum_cons, List.sum_nil]
        rw [show ({ b.packet with
            remainCount := b.packet.remainCount - 1,
            remainAmount := b.packet.remainAmount - allocAmount b.packet u } :
              Packet).totalAmount = b.packet.totalAmount from rfl]
        linarith [hA]
      · simp only [List.length_append, List.length_cons, List.length_nil]
        push_cast
        omega

theorem claim_accounting_invariant_witness :
    accountingInv ⟨⟨1, 2, Normal, 3, 3, 3, 3⟩, []⟩ :=
  claim_accounting_invariant ⟨⟨1, 2, Normal, 3, 3, 3, 3⟩, []⟩
    ⟨⟨1, 2, Normal, 3, 3, 3, 3⟩, []⟩ ⟨rfl, rfl, rfl⟩ Relation.ReflTransGen.refl

/-- C3 (code bug): at the lucky-mode snapshot `remain_count = 2`,
`remain_amount = 1.00` with draw `u = 0.25`, the bounds are min = 0.01 and
max = 0.99, and the code allocates `(0.99 - 0.01) * 0.25 + 0.01 = 0.255`:
`min.Exponent()` is -2, the library's `Truncate` returns its receiver
unchanged for a negative precision, so the amount is not truncated to the
precision of the minimum unit and is no integer multiple of 0.01, contrary
to the claim (which predicts 0.25). -/
theorem luckAmount_not_truncated :
    allocAmount ⟨1, 2, Luck, 2, 2, 1, 1⟩ (1/4) = 51/200 ∧
      decTruncate minimumRecordAmountExponent (51/200) = 51/200 ∧
      ¬ ∃ k : ℤ, (51/200 : ℚ) = (k : ℚ) * minimumRecordAmount := by
  refine ⟨?_, ?_, ?_⟩
  · norm_num [allocAmount, decDiv, decTruncate, minimumRecordAmount, Normal,
      Luck, divisionPrecision, minimumRecordAmountExponent]
  · exact decTruncate_of_neg _ _ (by norm_num [minimumRecordAmountExponent])
  · rintro ⟨k, hk⟩
    rw [minimumRecordAmount] at hk
    have h2 : (2 : ℚ) * (k : ℚ) = 51 := by
      field_simp at hk
      linarith
    have h3 : (2 * k : ℤ) = 51 := by exact_mod_cast h2
    omega

/-- On nonnegative dividend and positive divisor, `decDiv` is the half-up
rounding of the quotient at 16 digits. -/
theorem decDiv_nonneg_eq (x y : ℚ) (hx : 0 ≤ x) (hy : 0 < y) :
    decDiv x y = ((Int.floor (x / y * 10 ^ 16 + 1 / 2) : ℤ) : ℚ) / 10 ^ 16 := by
  have hxy : ¬ x * y < 0 := not_lt.mpr (mul_nonneg hx hy.le)
  simp [decDiv, divisionPrecision, abs_of_nonneg hx, abs_of_pos hy, hxy]

/-- A quotient of at least 0.01 stays at least 0.01 after the rounding. -/
theorem decDiv_ge_min (x y : ℚ) (hy : 0 < y) (hq : 1 / 100 ≤ x / y) :
    1 / 100 ≤ decDiv x y := by
  have hx : 0 ≤ x := by
    have h := (le_div_iff hy).mp hq
    nlinarith
  rw [decDiv_nonneg_eq x y hx hy]
  have hfl : (10 ^ 14 : ℤ) ≤ Int.floor (x / y * 10 ^ 16 + 1 / 2) := by
    apply Int.le_floor.mpr
    push_cast
    nlinarith [hq]
  have h16 : (0 : ℚ) < 10 ^ 16 := by positivity
  rw [le_div_iff h16]
  have hflQ : ((10 ^ 14 : ℤ) : ℚ) ≤ (Int.floor (x / y * 10 ^ 16 + 1 / 2) : ℚ) := by
    exact_mod_cast hfl
  push_cast at hflQ
  linarith

/-- The even-split share, rounding included, never eats into the minimum
units owed to the other `c - 1` slots. -/
theorem decDiv_remain_bound (m : ℚ) (c : ℤ) (hc : 2 ≤ c)
    (hm : (c : ℚ) * (1 / 100) ≤ m) :
    decDiv m (c : ℚ) ≤ m - ((c : ℚ) - 1) * (1 / 100) := by
  have hcQ : (2 : ℚ) ≤ (c : ℚ) := by exact_mod_cast hc
  have hc0 : (0 : ℚ) < (c : ℚ) := by linarith
  have hm0 : 0 ≤ m := by nlinarith
  have hq : 1 / 100 ≤ m / (c : ℚ) := by
    rw [le_div_iff hc0]; linarith
  rw [decDiv_nonneg_eq m (c : ℚ) hm0 hc0]
  have h16 : (0 : ℚ) < 10 ^ 16 := by positivity
  set q : ℚ := m / (c : ℚ) with hqdef
  have hid : m - ((c : ℚ) - 1) * (1 / 100) = q + ((c : ℚ) - 1) * (q - 1 / 100) := by
    rw [hqdef]
    field_simp
    ring
  rcases le_or_lt ((Int.floor (q * 10 ^ 16) : ℚ) + 1 / 2) (q * 10 ^ 16) with hB | hA
  · have hk : (10 ^ 14 : ℤ) ≤ Int.floor (q * 10 ^ 16) := by
      apply Int.le_floor.mpr
      push_cast
      nlinarith [hq]
    have hkQ : ((10 ^ 14 : ℤ) : ℚ) ≤ (Int.floor (q * 10 ^ 16) : ℚ) := by
      exact_mod_cast hk
    push_cast at hkQ
    have hgap : 1 / (2 * 10 ^ 16) ≤ q - 1 / 100 := by
      norm_num at hB hkQ ⊢
      linarith
    have hup : ((Int.floor (q * 10 ^ 16 + 1 / 2) : ℤ) : ℚ) ≤ q * 10 ^ 16 + 1 / 2 :=
      Int.floor_le _
    have hprod : 1 / (2 * 10 ^ 16) ≤ ((c : ℚ) - 1) * (q - 1 / 100) := by
      calc (1 : ℚ) / (2 * 10 ^ 16) ≤ q - 1 / 100 := hgap
        _ = 1 * (q - 1 / 100) := (one_mul _).symm
        _ ≤ ((c : ℚ) - 1) * (q - 1 / 100) :=
            mul_le_mul_of_nonneg_right (by linarith) (by linarith)
    rw [div_le_iff h16, hid]
    set X : ℚ := ((c : ℚ) - 1) * (q - 1 / 100) with hXdef
    linarith
  · have hlt : Int.floor (q * 10 ^ 16 + 1 / 2) < Int.floor (q * 10 ^ 16) + 1 := by
      apply Int.floor_lt.mpr
      push_cast
      linarith
    have hle : Int.floor (q * 10 ^ 16 + 1 / 2) ≤ Int.floor (q * 10 ^ 16) := by omega
    have hleQ : ((Int.floor (q * 10 ^ 16 + 1 / 2) : ℤ) : ℚ) ≤ q * 10 ^ 16 :=
      le_trans (by exact_mod_cast hle) (Int.floor_le _)
    have hqpos : 0 ≤ q - 1 / 100 := by linarith
    have hX0 : 0 ≤ ((c : ℚ) - 1) * (q - 1 / 100) :=
      mul_nonneg (by linarith) hqpos
    rw [div_le_iff h16, hid]
    set X : ℚ := ((c : ℚ) - 1) * (q - 1 / 100) with hXdef
    linarith

/-- In lucky mode (with more than one slot left) the allocated amount is
the un-truncated linear draw between the minimum and the capped maximum. -/
theorem allocAmount_luck_eq (p : Packet) (u : ℚ) (h1 : p.remainCount ≠ 1)
    (hL : p.mode = Luck) :
    allocAmount p u =
      ((if decDiv p.remainAmount (p.remainCount : ℚ) +
            decDiv p.remainAmount (p.remainCount : ℚ) <
            p.remainAmount - ((p.remainCount : ℚ) - 1) * minimumRecordAmount
          then
            decDiv p.remainAmount (p.remainCount : ℚ) +
              decDiv p.remainAmount (p.remainCount : ℚ)
          else p.remainAmount - ((p.remainCount : ℚ) - 1) * minimumRecordAmount) -
          minimumRecordAmount) * u + minimumRecordAmount := by
  have hT : ∀ x : ℚ, decTruncate minimumRecordAmountExponent x = x := fun x =>
    decTruncate_of_neg _ _ (by norm_num [minimumRecordAmountExponent])
  simp only [allocAmount, if_neg h1, hL, Luck, Normal, hT]
  norm_num

/-- C5: on a snapshot satisfying the data-model invariants (declared mode,
at least one slot, at least the minimum unit per remaining slot), the
allocated amount a satisfies minimum_unit ≤ a ≤ remain_amount, and the
remainder after subtracting a still funds the remaining slots. -/
theorem allocAmount_bounds (p : Packet) (u : ℚ)
    (hmode : p.mode = Normal ∨ p.mode = Luck)
    (hcount : 1 ≤ p.remainCount)
    (hamount : (p.remainCount : ℚ) * minimumRecordAmount ≤ p.remainAmount)
    (hu0 : 0 ≤ u) (hu1 : u < 1) :
    minimumRecordAmount ≤ allocAmount p u ∧
      allocAmount p u ≤ p.remainAmount ∧
      ((p.remainCount : ℚ) - 1) * minimumRecordAmount ≤
        p.remainAmount - allocAmount p u := by
  rw [minimumRecordAmount] at hamount ⊢
  by_cases h1 : p.remainCount = 1
  · rw [allocAmount, if_pos h1, h1]
    rw [h1] at hamount
    push_cast at hamount ⊢
    refine ⟨by linarith, le_refl _, by norm_num⟩
  · have hc2 : 2 ≤ p.remainCount := by omega
    have hc2Q : (2 : ℚ) ≤ (p.remainCount : ℚ) := by exact_mod_cast hc2
    have hc0 : (0 : ℚ) < (p.remainCount : ℚ) := by linarith
    have key := decDiv_remain_bound p.remainAmount p.remainCount hc2 hamount
    have low : 1 / 100 ≤ decDiv p.remainAmount (p.remainCount : ℚ) := by
      apply decDiv_ge_min _ _ hc0
      rw [le_div_iff hc0]
      linarith
    rcases hmode with hN | hL
    · rw [allocAmount, if_neg h1, if_pos hN]
      refine ⟨low, by nlinarith [key, hc2Q], by linarith [key]⟩
    · rw [allocAmount_luck_eq p u h1 hL, minimumRecordAmount]
      set A : ℚ := decDiv p.remainAmount (p.remainCount : ℚ) with hAdef
      set M : ℚ := p.remainAmount - ((p.remainCount : ℚ) - 1) * (1 / 100) with hMdef
      have hM1 : 1 / 100 ≤ M := by
        rw [hMdef]
        nlinarith [hamount, hc2Q]
      by_cases hcmp : A + A < M
      · rw [if_pos hcmp]
        have hA1 : 1 / 100 ≤ A + A := by linarith
        refine ⟨by nlinarith, ?_, ?_⟩
        · -- (A + A - 1/100) * u + 1/100 ≤ p.remainAmount
          have hle : (A + A - 1 / 100) * u + 1 / 100 ≤ A + A := by
            nlinarith
          have hMle : M ≤ p.remainAmount := by
            rw [hMdef]
            nlinarith [hc2Q]
          linarith
        · have hle : (A + A - 1 / 100) * u + 1 / 100 ≤ A + A := by
            nlinarith
          rw [hMdef] at hcmp
          linarith
      · rw [if_neg hcmp]
        refine ⟨by nlinarith [hM1], ?_, ?_⟩
        · have hle : (M - 1 / 100) * u + 1 / 100 ≤ M := by
            nlinarith [hM1]
          have hMle : M ≤ p.remainAmount := by
            rw [hMdef]
            nlinarith [hc2Q]
          linarith
        · have hle : (M - 1 / 100) * u + 1 / 100 ≤ M := by
            nlinarith [hM1]
          linarith

theorem allocAmount_bounds_witness :
    minimumRecordAmount ≤ allocAmount ⟨1, 2, Normal, 2, 2, 1, 1⟩ 0 ∧
      allocAmount ⟨1, 2, Normal, 2, 2, 1, 1⟩ 0 ≤
        (⟨1, 2, Normal, 2, 2, 1, 1⟩ : Packet).remainAmount ∧
      (((⟨1, 2, Normal, 2, 2, 1, 1⟩ : Packet).remainCount : ℚ) - 1) *
          minimumRecordAmount ≤
        (⟨1, 2, Normal, 2, 2, 1, 1⟩ : Packet).remainAmount -
          allocAmount ⟨1, 2, Normal, 2, 2, 1, 1⟩ 0 :=
  allocAmount_bounds ⟨1, 2, Normal, 2, 2, 1, 1⟩ 0 (Or.inl rfl) (by decide)
    (by norm_num [minimumRecordAmount]) (le_refl 0) (by norm_num)

end PacketDemo
